import Mathlib

/-!
Verification development for the MeeseOS server-side VFS core
(`src/backend/server/src/vfs.js`, `src/backend/server/src/utils/vfs.js`,
`src/backend/server/src/adapters/vfs/system.js`).

JavaScript strings are modelled as `List Char` (alias `Str`).  Promise
resolution/rejection is modelled by `Except Err`.  Backend side effects are
modelled by explicit state passing; the list of adapter invocations performed
by the dispatcher is returned as an explicit trace so that "no adapter call
happened" becomes "the trace is empty".
-/

namespace MeeseVfs

/-- Strings of the JavaScript program, modelled as lists of characters. -/
abbrev Str := List Char

/-- Single-quote character, used when building the error messages of the
permission gate and the mountpoint resolver. -/
def sq : Char := Char.ofNat 39

/-! ## Path model (`utils/vfs.js`) -/

/-- Embedding of `getPrefix` from `utils/vfs.js`:
`String(path).split(":")[0]`, i.e. everything before the first colon
(the whole string when there is no colon).  (The Lean name avoids the
source's exact spelling for technical reasons only.) -/
def getPrefixStr (path : Str) : Str :=
  path.takeWhile (fun c => c ≠ ':')

/-- Character class `[\w-_]` of the JavaScript regex in `sanitize`:
word characters, hyphen and underscore. -/
def wordChar (c : Char) : Bool :=
  c.isAlpha || c.isDigit || c = '_' || c = '-'

/-- Characters matched by the JavaScript regex metacharacter `.`
(anything except a line terminator). -/
def jsDot (c : Char) : Bool :=
  !(c = Char.ofNat 10 || c = Char.ofNat 13 ||
    c = Char.ofNat 0x2028 || c = Char.ofNat 0x2029)

/-- Characters stripped from a single path segment.

Modelled from the spec: the external `sanitize-filename` dependency used by
`sanitize` in `utils/vfs.js` is not part of this repository; the spec
describes it as "sanitize every path segment independently (strip characters
illegal in filenames)".  We model the set of illegal characters as the
filesystem-reserved punctuation together with the control ranges. -/
def illegalFsChar (c : Char) : Bool :=
  c ∈ ['/', '?', '<', '>', '\\', ':', '*', '|', '"'] ||
  c.toNat < 0x20 || (0x80 ≤ c.toNat && c.toNat ≤ 0x9f)

/-- Modelled from the spec: the external `sanitize-filename` dependency,
"strip characters illegal in filenames" applied to one path segment. -/
def sanitizeFilename (s : Str) : Str :=
  s.filter (fun c => !illegalFsChar c)

/-- Embedding of `path.replace(/\/+/g, "/")`: collapse every run of
slashes into a single slash. -/
def collapse : Str → Str
  | [] => []
  | [c] => [c]
  | a :: b :: rest =>
    if a = '/' ∧ b = '/' then collapse (b :: rest)
    else a :: collapse (b :: rest)

/-- Embedding of `str.split("/")` (JavaScript split keeps empty pieces). -/
def splitSlash : Str → List Str
  | [] => [[]]
  | c :: rest =>
    if c = '/' then [] :: splitSlash rest
    else
      match splitSlash rest with
      | [] => [[c]]
      | seg :: segs => (c :: seg) :: segs

/-- Embedding of `array.join("/")`. -/
def joinSlash : List Str → Str
  | [] => []
  | [s] => s
  | s :: rest => s ++ '/' :: joinSlash rest

/-- Embedding of the match of `/^([\w-_]+):+(.*)/` in `sanitize`: a greedy
non-empty run of `[\w-_]` characters, one or more colons, then `(.*)`
(which stops at a line terminator).  Returns the two capture groups. -/
def matchAddr (l : Str) : Option (Str × Str) :=
  let name := l.takeWhile wordChar
  if name.isEmpty then none
  else
    match l.drop name.length with
    | ':' :: r => some (name, (r.dropWhile (fun c => c = ':')).takeWhile jsDot)
    | _ => none

/-- Embedding of `sanitize` from `utils/vfs.js` (single-string case):
collapse duplicate slashes, match `^([\w-_]+):+(.*)`, sanitize every `/`
separated segment of the remainder, re-join, collapse once more and
re-attach `name + ":"`.  When the regex does not match, the JavaScript code
throws a `TypeError` (it calls `.split` on `undefined`); this is modelled
by `none`. -/
def sanitize (path : Str) : Option Str :=
  match matchAddr (collapse path) with
  | none => none
  | some (name, str) =>
    some (name ++ ':' ::
      collapse (joinSlash ((splitSlash str).map sanitizeFilename)))

/-! ## Group validation (`utils/vfs.js`) -/

/-- Entries of a mountpoint's `groups` attribute: either a plain group name
or a `method: [group, ...]` map. -/
inductive GroupEntry where
  | named (g : String)
  | methodMap (entries : List (String × List String))
deriving DecidableEq

/-- Embedding of `validateAll`:
`arr[strict ? "every" : "some"]((g) => compare.indexOf(g) !== -1)`. -/
def validateAll (arr compare : List String) (strict : Bool) : Bool :=
  if strict then arr.all (fun g => compare.contains g)
  else arr.any (fun g => compare.contains g)

/-- Embedding of `validateNamedGroups`: keep the plain-string entries; when
there are any, validate them all (strict) or any (lenient); otherwise pass. -/
def validateNamedGroups (groups : List GroupEntry) (userGroups : List String)
    (strict : Bool) : Bool :=
  let namedGroups := groups.filterMap (fun g =>
    match g with
    | .named s => some s
    | .methodMap _ => none)
  if namedGroups.isEmpty then true
  else validateAll namedGroups userGroups strict

/-- Whether a non-string group entry has the given method as a key
(the JavaScript `method in g` test; plain strings answer `false`). -/
def entryHasMethod (method : String) : GroupEntry → Bool
  | .named _ => false
  | .methodMap entries => (entries.find? (fun e => e.1 = method)).isSome

/-- Embedding of `validateMethodGroups`: find the first non-string entry
containing the method as a key and validate its group list; pass when no
entry matches. -/
def validateMethodGroups (groups : List GroupEntry) (userGroups : List String)
    (method : String) (strict : Bool) : Bool :=
  match groups.find? (entryHasMethod method) with
  | some (.methodMap entries) =>
    validateAll (((entries.find? (fun e => e.1 = method)).map (fun e => e.2)).getD [])
      userGroups strict
  | _ => true

/-- Attributes of a mountpoint, as consulted by the permission gate and the
dispatcher.  `readOnly` is the truthiness of `attributes.readOnly`;
`groups`, `strictGroups` and `searchable` keep track of absence
(`none` models `undefined`).  `rootTemplate` is `attributes.root`, the
segment template consumed by `getRealPath` in the system adapter. -/
structure Attributes where
  readOnly : Bool := false
  groups : Option (List GroupEntry) := none
  strictGroups : Option Bool := none
  searchable : Option Bool := none
  rootTemplate : Str := []

/-- A registered mountpoint: its name, its VFS root (e.g. `home:/`,
consumed by `getRealPath`), the configured adapter name (`none` selects the
default system adapter) and its attributes. -/
structure Mount where
  name : Str
  root : Str := []
  adapterName : Option String := none
  attributes : Attributes := {}

/-- Embedding of `validateGroups`: read `attributes.groups || []`; when
non-empty both the named-group check and the method-group check must pass. -/
def validateGroups (userGroups : List String) (method : String)
    (mountpoint : Mount) (strict : Bool) : Bool :=
  let groups := mountpoint.attributes.groups.getD []
  if groups.isEmpty then true
  else
    validateNamedGroups groups userGroups strict &&
    validateMethodGroups groups userGroups method strict

/-! ## Errors and the permission gate (`utils/vfs.js`) -/

/-- The `code` property carried by an error: a numeric HTTP-style code set
via `createError`, a string code of a backend error (e.g. `ENOENT`), or
absent. -/
inductive ErrCode where
  | num (n : Nat)
  | str (s : String)
  | undefc
deriving DecidableEq

/-- An error value: its `code` property and its message. -/
structure Err where
  code : ErrCode
  msg : Str
deriving DecidableEq

/-- Embedding of `createError`: an error with a numeric code. -/
def createError (code : Nat) (message : Str) : Err :=
  { code := .num code, msg := message }

/-- Message of a read-only rejection: `Mountpoint '<name>' is read-only`. -/
def readOnlyMsg (name : Str) : Str :=
  ("Mountpoint ".toList) ++ sq :: name ++ sq :: (" is read-only".toList)

/-- Message of a group rejection:
`Permission was denied for '<method>' in '<name>'`. -/
def deniedMsg (method : String) (name : Str) : Str :=
  ("Permission was denied for ".toList) ++ sq :: method.toList ++ sq ::
    (" in ".toList) ++ sq :: name ++ [sq]

/-- Message of a failed mountpoint lookup:
`Mountpoint not found for '<prefix>'`. -/
def notFoundMsg (p : Str) : Str :=
  ("Mountpoint not found for ".toList) ++ sq :: p ++ [sq]

/-- The `readOnly` argument of `checkMountpointPermission`: the call sites
pass a boolean, but the source also supports a predicate over the request
returning a target address whose prefix is compared with the mount name. -/
inductive ReadOnlyArg where
  | bool (b : Bool)
  | fn (target : Str)

/-- Truthiness of the `readOnly` argument (a function is truthy). -/
def roTruthy : ReadOnlyArg → Bool
  | .bool b => b
  | .fn _ => true

/-- The `failed` value computed inside the read-only branch:
`typeof readOnly === "function" ? getPrefix(readOnly(req, res)) === name : readOnly`. -/
def roFailed (mount : Mount) : ReadOnlyArg → Bool
  | .bool b => b
  | .fn target => getPrefixStr target == mount.name

/-- Embedding of (the inner closure of) `checkMountpointPermission`:
first the read-only gate, then group validation.  `userGroups` stands for
`req.session.user.groups`.  Resolution with `true` models
`Promise.resolve(true)`. -/
def checkMountpointPermission (userGroups : List String) (method : String)
    (readOnly : ReadOnlyArg) (strict : Bool) (mount : Mount) : Except Err Bool :=
  if roTruthy readOnly && mount.attributes.readOnly && roFailed mount readOnly then
    .error (createError 403 (readOnlyMsg mount.name))
  else if validateGroups userGroups method mount strict then
    .ok true
  else
    .error (createError 403 (deniedMsg method mount.name))

/-! ## JavaScript values, result normalizers (`vfs.js`) -/

/-- Dynamic JavaScript values exchanged between the dispatcher and the
adapters.  `obj` carries own properties in insertion order; `streamv`
carries the byte contents standing behind a readable stream. -/
inductive JSValue where
  | num (n : Int)
  | bool (b : Bool)
  | str (s : Str)
  | nullv
  | undefv
  | arr (elems : List JSValue)
  | obj (fields : List (String × JSValue))
  | streamv (data : List Nat)

/-- JavaScript truthiness of a value (`Boolean(v)`). -/
def truthy : JSValue → Bool
  | .num n => n ≠ 0
  | .bool b => b
  | .str s => !s.isEmpty
  | .nullv => false
  | .undefv => false
  | .arr _ => true
  | .obj _ => true
  | .streamv _ => true

/-- Embedding of `respondNumber` from `vfs.js`:
`typeof result === "number" ? result : -1`. -/
def respondNumber : JSValue → JSValue
  | .num n => .num n
  | _ => .num (-1)

/-- Embedding of `respondBoolean` from `vfs.js`:
`typeof result === "boolean" ? result : Boolean(result)`. -/
def respondBoolean (v : JSValue) : JSValue :=
  match v with
  | .bool b => .bool b
  | _ => .bool (truthy v)

/-! ## Options objects (`createOptions` in `vfs.js`) -/

/-- A JavaScript object as a list of own properties in insertion order. -/
abbrev JSObj := List (String × JSValue)

/-- Lookup of an own property. -/
def objGet (o : JSObj) (k : String) : Option JSValue :=
  (o.find? (fun e => e.1 = k)).map (fun e => e.2)

/-- Property assignment: overwrite in place when the key exists (JavaScript
keeps the original insertion position; the keys of an object are unique, so
replacing the first binding is faithful), otherwise append. -/
def objSet (o : JSObj) (k : String) (v : JSValue) : JSObj :=
  match o with
  | [] => [(k, v)]
  | e :: rest => if e.1 = k then (k, v) :: rest else e :: objSet rest k v

/-- The inbound request data consumed by `createOptions`: the client-supplied
`options` field, the already-parsed `Range` header (the HTTP parsing of
`parseRangeHeader` is outside this model) and the server-side session. -/
structure Req where
  fieldsOptions : JSValue
  range : Option (Int × Option Int) := none
  session : JSValue

/-- The `[start, end]` array stored under the `range` key. -/
def rangeValue (r : Int × Option Int) : JSValue :=
  .arr [.num r.1, (r.2.map JSValue.num).getD .undefv]

/-- Embedding of `createOptions` from `vfs.js`.  `parse` stands for
`JSON.parse` restricted to results that are objects (a parse failure or a
non-object result contributes no client-controlled keys, modelling the
`|| {}` fallback and the degenerate spread of a primitive).  The final
object is `{ ...result, session }`: the server-side session always wins. -/
def createOptions (parse : Str → Option JSObj) (req : Req) : JSObj :=
  let result : JSObj :=
    match req.fieldsOptions with
    | .str s => (parse s).getD []
    | .obj o => o
    | _ => []
  let withRange :=
    match req.range with
    | some r => objSet result "range" (rangeValue r)
    | none => result
  objSet withRange "session" req.session

/-- The `session` property of an options object, as read by the adapters
(`options.session`). -/
def sessionOf (opts : JSObj) : JSValue :=
  (objGet opts "session").getD .undefv

/-! ## Segment resolution and real paths (`adapters/vfs/system.js`) -/

/-- Opening brace character. -/
def lbChar : Char := Char.ofNat 123

/-- Closing brace character. -/
def rbChar : Char := Char.ofNat 125

/-- The `\w` class of the segment regex. -/
def segWordChar (c : Char) : Bool :=
  c.isAlpha || c.isDigit || c = '_'

/-- Embedding of `matchSegments`: all matches of `/(\{\w+\})/g`, in order.
Matches cannot begin inside a previous match, so restarting the scan one
character after a successful match instead of after the closing brace
yields the same list. -/
def matchSegments : Str → List Str
  | [] => []
  | c :: rest =>
    let w := rest.takeWhile segWordChar
    if c = lbChar ∧ !w.isEmpty ∧ (rest.drop w.length).head? = some rbChar then
      (lbChar :: (w ++ [rbChar])) :: matchSegments rest
    else matchSegments rest

/-- The static and session-dependent configuration values consumed by the
segment table: `process.cwd()` and `core.config("vfs.root", process.cwd())`. -/
structure CoreCfg where
  cwd : Str := []
  vfsRoot : Str := []

/-- Reading `session.user.username`.  A missing property yields the empty
string where the JavaScript code would throw; only sessions that do carry
the property are exercised by the theorems below. -/
def sessionUsername (session : JSValue) : Str :=
  match session with
  | .obj o =>
    match objGet o "user" with
    | some (.obj u) =>
      match objGet u "username" with
      | some (.str s) => s
      | _ => []
    | _ => []
  | _ => []

/-- Embedding of `getSegment` and the `segments` table: `root` resolves to
the working directory, `vfs` to the configured VFS root, `username` to
`session.user.username`, anything else to the empty string. -/
def getSegment (core : CoreCfg) (session : JSValue) (seg : Str) : Str :=
  if seg = "root".toList then core.cwd
  else if seg = "vfs".toList then core.vfsRoot
  else if seg = "username".toList then sessionUsername session
  else []

/-- Replacement of the first occurrence of `pat` (a plain string pattern) by
`rep`, as performed by `String.prototype.replace` with a string pattern. -/
def replaceFirst (pat rep : Str) : Str → Str
  | [] => if pat.isPrefixOf ([] : Str) then rep else []
  | c :: rest =>
    if pat.isPrefixOf (c :: rest) then rep ++ (c :: rest).drop pat.length
    else c :: replaceFirst pat rep rest

/-- Stripping the braces of a matched segment
(`current.replace(/(\{|\})/g, "")`). -/
def stripBraces (s : Str) : Str :=
  s.filter (fun c => c ≠ lbChar ∧ c ≠ rbChar)

/-- Embedding of `resolveSegments`: fold over the matches, replacing the
first occurrence of each by its segment value. -/
def resolveSegments (core : CoreCfg) (session : JSValue) (str : Str) : Str :=
  (matchSegments str).foldl
    (fun result current =>
      replaceFirst current (getSegment core session (stripBraces current)) result)
    str

/-- Model of Node's `path.join` for the inputs in scope: join with a
separator and collapse duplicate slashes (dot-segment normalization is not
modelled; no path in scope contains `.` or `..` segments). -/
def pathJoin (a b : Str) : Str :=
  if a.isEmpty ∧ b.isEmpty then ".".toList
  else if a.isEmpty then collapse b
  else if b.isEmpty then collapse a
  else collapse (a ++ '/' :: b)

/-- Embedding of `getRealPath` from `adapters/vfs/system.js`: resolve the
mount's root template against the session, strip the mount root prefix from
the file address (`file.substring(mount.root.length - 1)`, where the `- 1`
keeps the leading slash) and join. -/
def getRealPath (core : CoreCfg) (session : JSValue) (mount : Mount)
    (file : Str) : Str :=
  pathJoin (resolveSegments core session mount.attributes.rootTemplate)
    (file.drop (mount.root.length - 1))

/-! ## Mountpoint resolution and the dispatcher (`vfs.js`) -/

/-- One adapter operation: it receives the resolved mount (and, for the
native cross operations, the destination mount), the backend state, the
target address, the remaining positional arguments and the options object,
and yields a result together with the new backend state. -/
abbrev OpFn (σ : Type) :=
  Mount → Option Mount → σ → Str → List JSValue → JSObj → Except Err JSValue × σ

/-- An adapter: a partial map from method names to operations (`adapter[m]`
is `undefined` for unsupported methods). -/
structure Adapter (σ : Type) where
  find : String → Option (OpFn σ)

/-- The effective adapter name of a mount:
`mount.adapter ? adapters[mount.adapter] : adapters.system`. -/
def effAdapterName (m : Mount) : String :=
  m.adapterName.getD "system"

/-- Embedding of `mountpointResolver`: find the mount whose name equals the
address prefix, else reject with `createError(403, ...)`; resolve the
adapter from the registry. -/
def findMountpoint (mounts : List Mount) (adapters : String → Adapter σ)
    (path : Str) : Except Err (Mount × Adapter σ) :=
  match mounts.find? (fun m => m.name == getPrefixStr path) with
  | none => .error (createError 403 (notFoundMsg (getPrefixStr path)))
  | some m => .ok (m, adapters (effAdapterName m))

/-- A record of one executed adapter invocation (method and primary
target), used to express "no adapter call happened". -/
structure AdapterCall where
  method : String
  target : Str
deriving DecidableEq

/-- The `TypeError` thrown when JavaScript calls a missing function. -/
def typeErrorErr : Err :=
  { code := .undefc, msg := "TypeError".toList }

/-- Rejection used by the dispatcher when `found.adapter[m]` is undefined:
`Adapter does not support <m>` (a plain `Error`, no numeric code). -/
def adapterUnsupported (m : String) : Err :=
  { code := .undefc, msg := ("Adapter does not support ".toList) ++ m.toList }

/-- Result applied through the optional responder
(`respond ? respond(result) : result`). -/
def applyRespond (respond : Option (JSValue → JSValue)) (v : JSValue) : JSValue :=
  match respond with
  | some f => f v
  | none => v

/-- Embedding of the handler produced by `createRequestFactory` (the `call`
function of `vfs.js`), for an already-sanitized target: resolve the
mountpoint, compute `strict` from `attributes.strictGroups !== false`,
short-circuit unsearchable mounts for `search`, run the permission gate,
invoke the adapter operation, and, for `readfile`, issue the secondary
`stat` call used for response headers (its failure is swallowed).  The
third component is the trace of executed adapter invocations. -/
def dispatchSingle (mounts : List Mount) (adapters : String → Adapter σ)
    (userGroups : List String) (method : String) (readOnly : ReadOnlyArg)
    (respond : Option (JSValue → JSValue)) (target : Str) (rest : List JSValue)
    (opts : JSObj) (st : σ) : Except Err JSValue × σ × List AdapterCall :=
  match findMountpoint mounts adapters target with
  | .error e => (.error e, st, [])
  | .ok (mount, ad) =>
    if method = "search" ∧ mount.attributes.searchable = some false then
      (.ok (.arr []), st, [])
    else
      match checkMountpointPermission userGroups method readOnly
          (decide (mount.attributes.strictGroups ≠ some false)) mount with
      | .error e => (.error e, st, [])
      | .ok _ =>
        match ad.find method with
        | none => (.error (adapterUnsupported method), st, [])
        | some op =>
          match op mount none st target rest opts with
          | (.error e, st1) => (.error e, st1, [⟨method, target⟩])
          | (.ok v, st1) =>
            if method = "readfile" then
              match ad.find "stat" with
              | none =>
                (.ok (applyRespond respond v), st1, [⟨method, target⟩])
              | some statOp =>
                (.ok (applyRespond respond v),
                 (statOp mount none st1 target [] opts).2,
                 [⟨method, target⟩, ⟨"stat", target⟩])
            else
              (.ok (applyRespond respond v), st1, [⟨method, target⟩])

/-- Embedding of the handler produced by `createCrossRequestFactory`, for
already-sanitized `from`/`to` addresses: resolve both mountpoints, gate
`readfile` on the source and `writefile` (with the read-only flag) on the
destination, then either delegate natively when both sides resolve the same
registry adapter, or simulate through `readfile` → `writefile` (→ `unlink`
for `rename`).  The result is coerced with `Boolean(result)`. -/
def dispatchCross (mounts : List Mount) (adapters : String → Adapter σ)
    (userGroups : List String) (method : String) (fromA toA : Str)
    (opts : JSObj) (st : σ) : Except Err JSValue × σ × List AdapterCall :=
  match findMountpoint mounts adapters fromA with
  | .error e => (.error e, st, [])
  | .ok (srcM, srcA) =>
    match findMountpoint mounts adapters toA with
    | .error e => (.error e, st, [])
    | .ok (destM, destA) =>
      match checkMountpointPermission userGroups "readfile" (.bool false)
          (decide (srcM.attributes.strictGroups ≠ some false)) srcM with
      | .error e => (.error e, st, [])
      | .ok _ =>
        match checkMountpointPermission userGroups "writefile" (.bool true)
            (decide (destM.attributes.strictGroups ≠ some false)) destM with
        | .error e => (.error e, st, [])
        | .ok _ =>
          if effAdapterName srcM = effAdapterName destM then
            match srcA.find method with
            | none => (.error typeErrorErr, st, [])
            | some op =>
              match op srcM (some destM) st fromA [.str toA] opts with
              | (.error e, st1) => (.error e, st1, [⟨method, fromA⟩])
              | (.ok v, st1) => (.ok (.bool (truthy v)), st1, [⟨method, fromA⟩])
          else
            match srcA.find "readfile" with
            | none => (.error typeErrorErr, st, [])
            | some rf =>
              match rf srcM none st fromA [] opts with
              | (.error e, st1) => (.error e, st1, [⟨"readfile", fromA⟩])
              | (.ok streamV, st1) =>
                match destA.find "writefile" with
                | none => (.error typeErrorErr, st1, [⟨"readfile", fromA⟩])
                | some wf =>
                  match wf destM none st1 toA [streamV] opts with
                  | (.error e, st2) =>
                    (.error e, st2, [⟨"readfile", fromA⟩, ⟨"writefile", toA⟩])
                  | (.ok wres, st2) =>
                    if method = "rename" then
                      match srcA.find "unlink" with
                      | none =>
                        (.error typeErrorErr, st2,
                         [⟨"readfile", fromA⟩, ⟨"writefile", toA⟩])
                      | some ul =>
                        match ul srcM none st2 fromA [] opts with
                        | (.error e, st3) =>
                          (.error e, st3,
                           [⟨"readfile", fromA⟩, ⟨"writefile", toA⟩,
                            ⟨"unlink", fromA⟩])
                        | (.ok _, st3) =>
                          (.ok (.bool (truthy wres)), st3,
                           [⟨"readfile", fromA⟩, ⟨"writefile", toA⟩,
                            ⟨"unlink", fromA⟩])
                    else
                      (.ok (.bool (truthy wres)), st2,
                       [⟨"readfile", fromA⟩, ⟨"writefile", toA⟩])

/-- A single-target request starting from the raw client path: the getter
(`requestPath` and friends) sanitizes first; a sanitize failure rejects the
request before any mountpoint resolution or adapter call. -/
def handleSingle (mounts : List Mount) (adapters : String → Adapter σ)
    (userGroups : List String) (method : String) (readOnly : ReadOnlyArg)
    (respond : Option (JSValue → JSValue)) (rawPath : Str) (rest : List JSValue)
    (opts : JSObj) (st : σ) : Except Err JSValue × σ × List AdapterCall :=
  match sanitize rawPath with
  | none => (.error typeErrorErr, st, [])
  | some target =>
    dispatchSingle mounts adapters userGroups method readOnly respond target
      rest opts st

/-- One row of the route wiring in the `vfs` function of `vfs.js`: the
method name, the `readOnly` flag passed to `createRequest`, the optional
result normalizer, and whether the route is a cross (source and target)
request. -/
structure RouteSpec where
  methodName : String
  readOnly : Bool
  respond : Option (JSValue → JSValue)
  cross : Bool

/-- Embedding of the route table built by `vfs` in `vfs.js`. -/
def vfsRoutes : List RouteSpec :=
  [ ⟨"capabilities", false, none, false⟩,
    ⟨"realpath", false, none, false⟩,
    ⟨"exists", false, some respondBoolean, false⟩,
    ⟨"stat", false, none, false⟩,
    ⟨"readdir", false, none, false⟩,
    ⟨"readfile", false, none, false⟩,
    ⟨"writefile", true, some respondNumber, false⟩,
    ⟨"mkdir", true, some respondBoolean, false⟩,
    ⟨"unlink", true, some respondBoolean, false⟩,
    ⟨"touch", true, some respondBoolean, false⟩,
    ⟨"search", false, none, false⟩,
    ⟨"copy", false, none, true⟩,
    ⟨"rename", false, none, true⟩,
    ⟨"archive", false, none, false⟩ ]

/-! ## A flat in-memory backend and the system adapter's file operations

The system adapter (`adapters/vfs/system.js`) executes against the host
filesystem through `fs-extra`.  The backend is modelled as a flat store
mapping real paths to byte contents (the directory-specific refusals of
`writefile`/`readfile` have no counterpart in a flat store and are not
exercised by the claims).  Real paths are computed by the translated
`getRealPath`, exactly as in the source. -/

/-- A flat backend: real path to byte contents. -/
abbrev Store := List (Str × List Nat)

/-- Lookup in a store. -/
def storeGet (st : Store) (k : Str) : Option (List Nat) :=
  (st.find? (fun e => e.1 == k)).map (fun e => e.2)

/-- Removal from a store (`fs.remove`, also a no-op when absent). -/
def storeErase (st : Store) (k : Str) : Store :=
  st.filter (fun e => !(e.1 == k))

/-- Overwriting insertion into a store. -/
def storeSet (st : Store) (k : Str) (v : List Nat) : Store :=
  (k, v) :: storeErase st k

/-- The `ENOENT` rejection of a missing filesystem entry. -/
def enoentErr : Err :=
  { code := .str "ENOENT", msg := "ENOENT".toList }

/-- A lens selecting the store a given adapter instance operates on inside
the global backend state (two registry entries backed by two disjoint
stores model two distinct backends). -/
structure StoreLens (σ : Type) where
  get : σ → Store
  set : σ → Store → σ

/-- Model of the system adapter's `readfile`: resolve the real path, reject
with `ENOENT` when absent, otherwise yield the contents as a stream. -/
def sysReadfile (core : CoreCfg) (lens : StoreLens σ) : OpFn σ :=
  fun vfs _ st target _rest opts =>
    match storeGet (lens.get st) (getRealPath core (sessionOf opts) vfs target) with
    | none => (.error enoentErr, st)
    | some d => (.ok (.streamv d), st)

/-- Model of the system adapter's `writefile`: stream the uploaded data into
the real path (creating or overwriting it) and resolve `true`. -/
def sysWritefile (core : CoreCfg) (lens : StoreLens σ) : OpFn σ :=
  fun vfs _ st target rest opts =>
    match rest with
    | [.streamv d] =>
      (.ok (.bool true),
       lens.set st
         (storeSet (lens.get st) (getRealPath core (sessionOf opts) vfs target) d))
    | _ => (.error typeErrorErr, st)

/-- Model of the system adapter's `unlink` (`fs.remove` then `true`). -/
def sysUnlink (core : CoreCfg) (lens : StoreLens σ) : OpFn σ :=
  fun vfs _ st target _rest opts =>
    (.ok (.bool true),
     lens.set st
       (storeErase (lens.get st) (getRealPath core (sessionOf opts) vfs target)))

/-- Model of the system adapter's `rename` (`crossWrapper("rename")`): the
source real path resolves against the source mount and the destination real
path against the destination mount; `fs.rename` moves the entry, rejecting
with `ENOENT` when the source is absent. -/
def sysRename (core : CoreCfg) (lens : StoreLens σ) : OpFn σ :=
  fun vfs vfs2 st target rest opts =>
    match rest with
    | [.str dest] =>
      let rs := getRealPath core (sessionOf opts) vfs target
      let rd := getRealPath core (sessionOf opts) (vfs2.getD vfs) dest
      match storeGet (lens.get st) rs with
      | none => (.error enoentErr, st)
      | some c =>
        (.ok (.bool true), lens.set st (storeSet (storeErase (lens.get st) rs) rd c))
    | _ => (.error typeErrorErr, st)

/-- Model of the system adapter's `copy` (`crossWrapper("copy")`). -/
def sysCopy (core : CoreCfg) (lens : StoreLens σ) : OpFn σ :=
  fun vfs vfs2 st target rest opts =>
    match rest with
    | [.str dest] =>
      let rs := getRealPath core (sessionOf opts) vfs target
      let rd := getRealPath core (sessionOf opts) (vfs2.getD vfs) dest
      match storeGet (lens.get st) rs with
      | none => (.error enoentErr, st)
      | some c => (.ok (.bool true), lens.set st (storeSet (lens.get st) rd c))
    | _ => (.error typeErrorErr, st)

/-- The file operations of the system adapter over a flat store, as an
adapter instance. -/
def sysAdapter (core : CoreCfg) (lens : StoreLens σ) : Adapter σ :=
  { find := fun m =>
      if m = "readfile" then some (sysReadfile core lens)
      else if m = "writefile" then some (sysWritefile core lens)
      else if m = "unlink" then some (sysUnlink core lens)
      else if m = "rename" then some (sysRename core lens)
      else if m = "copy" then some (sysCopy core lens)
      else none }

/-! ## The archive walk (`adapters/vfs/system.js`, `archive` with
`action: "compress"`) -/

/-- A directory tree of the backend, for the archive walk. -/
inductive FSTree where
  | file (data : List Nat)
  | dir (children : List (Str × FSTree))

/-- Child lookup inside a directory listing. -/
def findChild (cs : List (Str × FSTree)) (n : Str) : Option FSTree :=
  (cs.find? (fun c => c.1 == n)).map (fun c => c.2)

/-- Resolution of a segmented real path inside the tree (`fs.stat` /
`fs.readdir` succeed exactly on resolvable paths). -/
def resolvePath : List Str → FSTree → Option FSTree
  | [], t => some t
  | _ :: _, .file _ => none
  | n :: rest, .dir cs =>
    match findChild cs n with
    | none => none
    | some t => resolvePath rest t

/-- Splitting a real path into its non-empty segments. -/
def splitPath (p : Str) : List Str :=
  (splitSlash p).filter (fun s => !s.isEmpty)

/-- Embedding of `realPath.replace(/\/?$/, "/")`: ensure one trailing
slash. -/
def ensureSlash (p : Str) : Str :=
  if p.getLast? = some '/' then p else p ++ ['/']

/-- The `dir` component of `path.parse` for a path without a trailing slash
(the zip location always ends in `.zip`). -/
def dirOf (p : Str) : Str :=
  match p.reverse.dropWhile (fun c => c ≠ '/') with
  | [] => []
  | [_] => ['/']
  | _ :: rest => rest.reverse

mutual
/-- Embedding of `addToArchive`: a file contributes one entry named by
stripping the archive root from its real path
(`realPath.replace(archiveRoot, "")`); a directory contributes the entries
of all of its children, whose real paths are built as
`realPath.replace(/\/?$/, "/") + fileName`. -/
def walkTree (archiveRoot : Str) (p : Str) : FSTree → List (Str × List Nat)
  | .file d => [(replaceFirst archiveRoot [] p, d)]
  | .dir cs => walkChildren archiveRoot (ensureSlash p) cs

/-- Entries contributed by the children of a directory, in listing order. -/
def walkChildren (archiveRoot : Str) (p : Str) :
    List (Str × FSTree) → List (Str × List Nat)
  | [] => []
  | (n, t) :: rest =>
    walkTree archiveRoot (p ++ n) t ++ walkChildren archiveRoot p rest
end

/-- The entry-collection loop of `archive`/`compress`: walk each selected
real path in order; a path that does not resolve makes `fs.stat` reject
with `ENOENT`, aborting the loop with that error. -/
def collectEntries (archiveRoot : Str) (root : FSTree) :
    List Str → Except Err (List (Str × List Nat))
  | [] => .ok []
  | p :: rest =>
    match resolvePath (splitPath p) root with
    | none => .error enoentErr
    | some t =>
      match collectEntries archiveRoot root rest with
      | .error e => .error e
      | .ok es => .ok (walkTree archiveRoot p t ++ es)

/-- Embedding of the `compress` branch of `archive`: the zip is created at
`realPaths[0] + ".zip"` (JavaScript turns an empty selection into the
string `undefined`), the archive root is its parent directory plus the
separator; on success the zip holds every collected entry, on any entry
failure the partial zip is deleted (`none`) and the error re-raised. -/
def archiveCompress (root : FSTree) (realPaths : List Str) :
    Except Err Bool × Option (Str × List (Str × List Nat)) :=
  let zipLoc := (realPaths.head?.getD ("undefined".toList)) ++ (".zip".toList)
  let archiveRoot := dirOf zipLoc ++ ['/']
  match collectEntries archiveRoot root realPaths with
  | .ok es => (.ok true, some (zipLoc, es))
  | .error e => (.error e, none)

/-! ## Auxiliary predicates used by the theorems -/

/-- Absence of two consecutive slashes (the normal form of `collapse`). -/
def noDouble : Str → Bool
  | [] => true
  | [_] => true
  | a :: b :: rest => !(a == '/' && b == '/') && noDouble (b :: rest)

/-- Whether dropping the leading `[\w-_]` run leaves a string headed by a
colon. -/
def colonAfterWord (s : Str) : Bool :=
  match s.dropWhile wordChar with
  | ':' :: _ => true
  | _ => false

/-- Whether a string begins with a non-empty run of `[\w-_]` characters
followed by a colon, i.e. whether the regex of `sanitize` matches it. -/
def validStart (s : Str) : Bool :=
  !(s.takeWhile wordChar).isEmpty && colonAfterWord s

/-- The identity lens: one registry backed by a single store. -/
def idLens : StoreLens Store :=
  { get := fun s => s, set := fun _ s => s }

/-- Lens onto the first of two backend stores. -/
def fstLens : StoreLens (Store × Store) :=
  { get := fun st => st.1, set := fun st s => (s, st.2) }

/-- Lens onto the second of two backend stores. -/
def sndLens : StoreLens (Store × Store) :=
  { get := fun st => st.2, set := fun st s => (st.1, s) }

/-- A registry with two distinct adapters (`backendA`, `backendB`), backed
by two disjoint stores. -/
def twoBackends (core : CoreCfg) : String → Adapter (Store × Store) :=
  fun n => if n = "backendB" then sysAdapter core sndLens else sysAdapter core fstLens

/-- A registry in which every name resolves the system adapter over one
store. -/
def oneBackend (core : CoreCfg) : String → Adapter Store :=
  fun _ => sysAdapter core idLens

/-! ## Theorems -/

theorem filterMap_named_map (G : List String) :
    (G.map GroupEntry.named).filterMap (fun g =>
      match g with
      | .named s => some s
      | .methodMap _ => none) = G := by
  induction G with
  | nil => rfl
  | cons g gs ih => simp [ih]

theorem find?_methodMap_named (G : List String) (method : String) :
    (G.map GroupEntry.named).find? (entryHasMethod method) = none := by
  rw [List.find?_eq_none]
  intro x hx
  simp only [List.mem_map] at hx
  obtain ⟨g, _, rfl⟩ := hx
  simp [entryHasMethod]

/-- Claim C2: for a mount whose `groups` attribute is a non-empty list of
plain group names `G`, validation succeeds in strict mode exactly when
every name of `G` is among the user's groups and in lenient mode exactly
when at least one is; a mount with an absent or empty `groups` attribute
always passes. -/
theorem claim_c2_validateGroups (U G : List String) (method : String)
    (strict : Bool) (mp mpE : Mount)
    (hmp : mp.attributes.groups = some (G.map GroupEntry.named))
    (hG : G ≠ [])
    (hE : mpE.attributes.groups = none ∨ mpE.attributes.groups = some []) :
    (validateGroups U method mp true = G.all (fun g => U.contains g)) ∧
    (validateGroups U method mp false = G.any (fun g => U.contains g)) ∧
    validateGroups U method mpE strict = true := by
  have hne : (G.map GroupEntry.named).isEmpty = false := by
    cases G with
    | nil => exact absurd rfl hG
    | cons g gs => rfl
  have hnamed : ∀ b, validateGroups U method mp b = validateAll G U b := by
    intro b
    simp only [validateGroups, hmp, Option.getD_some, hne, Bool.false_eq_true,
      if_false, validateNamedGroups, filterMap_named_map, validateMethodGroups,
      find?_methodMap_named]
    cases hGi : G.isEmpty with
    | true => exact absurd (List.isEmpty_iff.mp hGi) hG
    | false => simp
  refine ⟨?_, ?_, ?_⟩
  · rw [hnamed true]; rfl
  · rw [hnamed false]; rfl
  · rcases hE with h | h <;> simp [validateGroups, h]

/-- Witness for C2 at the spec's concrete examples: with user groups
`["required"]` and mount groups `["required", "other"]` strict validation
fails and lenient succeeds; with user groups `["required", "other"]` and
mount groups `["required"]` both succeed. -/
theorem claim_c2_validateGroups_witness :
    validateGroups ["required"] "readfile"
      { name := ['m'],
        attributes :=
          { groups := some [GroupEntry.named "required", GroupEntry.named "other"] } }
      true = false ∧
    validateGroups ["required"] "readfile"
      { name := ['m'],
        attributes :=
          { groups := some [GroupEntry.named "required", GroupEntry.named "other"] } }
      false = true ∧
    validateGroups ["required", "other"] "readfile"
      { name := ['m'],
        attributes := { groups := some [GroupEntry.named "required"] } }
      true = true ∧
    validateGroups ["required", "other"] "readfile"
      { name := ['m'],
        attributes := { groups := some [GroupEntry.named "required"] } }
      false = true := by
  have h1 := claim_c2_validateGroups ["required"] ["required", "other"] "readfile"
    true
    { name := ['m'],
      attributes :=
        { groups := some [GroupEntry.named "required", GroupEntry.named "other"] } }
    { name := ['m'] } rfl (by decide) (Or.inl rfl)
  have h2 := claim_c2_validateGroups ["required", "other"] ["required"] "readfile"
    true
    { name := ['m'],
      attributes := { groups := some [GroupEntry.named "required"] } }
    { name := ['m'] } rfl (by decide) (Or.inl rfl)
  refine ⟨?_, ?_, ?_, ?_⟩
  · rw [h1.1]; decide
  · rw [h1.2.1]; decide
  · rw [h2.1]; decide
  · rw [h2.2.1]; decide

/-- Claim C3: an address whose prefix matches no registered mountpoint makes
the resolver reject with `createError(403, "Mountpoint not found for ...")`,
and both the single-target and the cross-target dispatchers propagate this
rejection without any adapter call. -/
theorem claim_c3_mount_not_found {σ : Type} (mounts : List Mount)
    (adapters : String → Adapter σ) (path : Str)
    (hp : ∀ m ∈ mounts, m.name ≠ getPrefixStr path) :
    findMountpoint mounts adapters path
      = .error (createError 403 (notFoundMsg (getPrefixStr path))) ∧
    (∀ (U : List String) (method : String) (ro : ReadOnlyArg)
        (respond : Option (JSValue → JSValue)) (rest : List JSValue)
        (opts : JSObj) (st : σ),
      dispatchSingle mounts adapters U method ro respond path rest opts st
        = (.error (createError 403 (notFoundMsg (getPrefixStr path))), st, [])) ∧
    (∀ (U : List String) (method : String) (toA : Str) (opts : JSObj) (st : σ),
      dispatchCross mounts adapters U method path toA opts st
        = (.error (createError 403 (notFoundMsg (getPrefixStr path))), st, [])) ∧
    (∀ (U : List String) (method : String) (fromA : Str) (opts : JSObj) (st : σ)
        (srcM : Mount) (srcA : Adapter σ),
      findMountpoint mounts adapters fromA = .ok (srcM, srcA) →
      dispatchCross mounts adapters U method fromA path opts st
        = (.error (createError 403 (notFoundMsg (getPrefixStr path))), st, [])) := by
  have hfind : findMountpoint mounts adapters path
      = .error (createError 403 (notFoundMsg (getPrefixStr path))) := by
    have : mounts.find? (fun m => m.name == getPrefixStr path) = none := by
      rw [List.find?_eq_none]
      intro m hm
      simpa using hp m hm
    simp [findMountpoint, this]
  refine ⟨hfind, ?_, ?_, ?_⟩
  · intro U method ro respond rest opts st
    simp [dispatchSingle, hfind]
  · intro U method toA opts st
    simp [dispatchCross, hfind]
  · intro U method fromA opts st srcM srcA hsrc
    simp [dispatchCross, hsrc, hfind]

/-- Witness for C3: a registry holding only a `home` mount rejects an
`unknown:` address. -/
theorem claim_c3_mount_not_found_witness :
    dispatchSingle (σ := Unit) [{ name := "home".toList }]
      (fun _ => { find := fun _ => none }) [] "readfile" (.bool false) none
      ("unknown:/f.txt".toList) [] [] ()
      = (.error (createError 403 (notFoundMsg ("unknown".toList))), (), []) := by
  have h := claim_c3_mount_not_found (σ := Unit) [{ name := "home".toList }]
    (fun _ => { find := fun _ => none }) ("unknown:/f.txt".toList)
    (by decide)
  exact h.2.1 [] "readfile" (.bool false) none [] [] ()

/-- Claim C4: whenever mountpoint resolution or the permission gate rejects
(on the single target, or on either side of a cross request), the whole
request rejects with that error, the backend state is unchanged and the
trace of adapter invocations is empty - no adapter call precedes a
successful authorization. -/
theorem claim_c4_no_adapter_call_before_auth {σ : Type} (mounts : List Mount)
    (adapters : String → Adapter σ) (U : List String) (method : String)
    (opts : JSObj) (st : σ) :
    (∀ (ro : ReadOnlyArg) (respond : Option (JSValue → JSValue)) (target : Str)
        (rest : List JSValue) (e : Err),
      findMountpoint mounts adapters target = .error e →
      dispatchSingle mounts adapters U method ro respond target rest opts st
        = (.error e, st, [])) ∧
    (∀ (ro : ReadOnlyArg) (respond : Option (JSValue → JSValue)) (target : Str)
        (rest : List JSValue) (m : Mount) (ad : Adapter σ) (e : Err),
      findMountpoint mounts adapters target = .ok (m, ad) →
      ¬(method = "search" ∧ m.attributes.searchable = some false) →
      checkMountpointPermission U method ro
        (decide (m.attributes.strictGroups ≠ some false)) m = .error e →
      dispatchSingle mounts adapters U method ro respond target rest opts st
        = (.error e, st, [])) ∧
    (∀ (fromA toA : Str) (e : Err),
      findMountpoint mounts adapters fromA = .error e →
      dispatchCross mounts adapters U method fromA toA opts st
        = (.error e, st, [])) ∧
    (∀ (fromA toA : Str) (srcM : Mount) (srcA : Adapter σ) (e : Err),
      findMountpoint mounts adapters fromA = .ok (srcM, srcA) →
      findMountpoint mounts adapters toA = .error e →
      dispatchCross mounts adapters U method fromA toA opts st
        = (.error e, st, [])) ∧
    (∀ (fromA toA : Str) (srcM destM : Mount) (srcA destA : Adapter σ) (e : Err),
      findMountpoint mounts adapters fromA = .ok (srcM, srcA) →
      findMountpoint mounts adapters toA = .ok (destM, destA) →
      checkMountpointPermission U "readfile" (.bool false)
        (decide (srcM.attributes.strictGroups ≠ some false)) srcM = .error e →
      dispatchCross mounts adapters U method fromA toA opts st
        = (.error e, st, [])) ∧
    (∀ (fromA toA : Str) (srcM destM : Mount) (srcA destA : Adapter σ) (e : Err),
      findMountpoint mounts adapters fromA = .ok (srcM, srcA) →
      findMountpoint mounts adapters toA = .ok (destM, destA) →
      checkMountpointPermission U "readfile" (.bool false)
        (decide (srcM.attributes.strictGroups ≠ some false)) srcM = .ok true →
      checkMountpointPermission U "writefile" (.bool true)
        (decide (destM.attributes.strictGroups ≠ some false)) destM = .error e →
      dispatchCross mounts adapters U method fromA toA opts st
        = (.error e, st, [])) := by
  refine ⟨?_, ?_, ?_, ?_, ?_, ?_⟩
  · intro ro respond target rest e hf
    simp [dispatchSingle, hf]
  · intro ro respond target rest m ad e hf hns hperm
    simp only [ne_eq, decide_not] at hperm
    simp [dispatchSingle, hf, hns, hperm]
  · intro fromA toA e hf
    simp [dispatchCross, hf]
  · intro fromA toA srcM srcA e hf ht
    simp [dispatchCross, hf, ht]
  · intro fromA toA srcM destM srcA destA e hf ht hperm
    simp only [ne_eq, decide_not] at hperm
    simp [dispatchCross, hf, ht, hperm]
  · intro fromA toA srcM destM srcA destA e hf ht hpS hpD
    simp only [ne_eq, decide_not] at hpS hpD
    simp [dispatchCross, hf, ht, hpS, hpD]

/-- Witness for C4: a group-restricted mount rejects a user without the
group before any adapter call is made. -/
theorem claim_c4_no_adapter_call_before_auth_witness :
    dispatchSingle (σ := Unit)
      [{ name := "g".toList,
         attributes := { groups := some [GroupEntry.named "admin"] } }]
      (fun _ => { find := fun _ => none }) [] "readdir" (.bool false) none
      ("g:/d".toList) [] [] ()
      = (.error (createError 403 (deniedMsg "readdir" ("g".toList))), (), []) := by
  have h := claim_c4_no_adapter_call_before_auth (σ := Unit)
    [{ name := "g".toList,
       attributes := { groups := some [GroupEntry.named "admin"] } }]
    (fun _ => { find := fun _ => none }) [] "readdir" [] ()
  exact h.2.1 (.bool false) none ("g:/d".toList) []
    { name := "g".toList,
      attributes := { groups := some [GroupEntry.named "admin"] } }
    { find := fun _ => none }
    (createError 403 (deniedMsg "readdir" ("g".toList))) (by rfl) (by decide) (by rfl)

/-- Claim C1: the mutating routes (`writefile`, `mkdir`, `unlink`, `touch`)
pass `readOnly = true` to the request factory (and the destination side of
`copy`/`rename` is gated with `readOnly = true`); on a mount whose
`attributes.readOnly` is true the permission gate rejects with
`createError(403, "Mountpoint '<name>' is read-only")` for every user group
list (the rejection precedes group validation), and the dispatcher
propagates the rejection with no adapter call. -/
theorem claim_c1_read_only_gate :
    (∀ r ∈ vfsRoutes,
      (r.methodName = "writefile" ∨ r.methodName = "mkdir" ∨
        r.methodName = "unlink" ∨ r.methodName = "touch") → r.readOnly = true) ∧
    (∀ (U : List String) (method : String) (strict : Bool) (mount : Mount),
      mount.attributes.readOnly = true →
      checkMountpointPermission U method (.bool true) strict mount
        = .error (createError 403 (readOnlyMsg mount.name))) ∧
    (∀ {σ : Type} (mounts : List Mount) (adapters : String → Adapter σ)
        (U : List String) (method : String)
        (respond : Option (JSValue → JSValue)) (target : Str)
        (rest : List JSValue) (opts : JSObj) (st : σ) (mount : Mount)
        (ad : Adapter σ),
      method ∈ ["writefile", "mkdir", "unlink", "touch"] →
      findMountpoint mounts adapters target = .ok (mount, ad) →
      mount.attributes.readOnly = true →
      dispatchSingle mounts adapters U method (.bool true) respond target rest opts st
        = (.error (createError 403 (readOnlyMsg mount.name)), st, [])) ∧
    (∀ {σ : Type} (mounts : List Mount) (adapters : String → Adapter σ)
        (U : List String) (method : String) (fromA toA : Str) (opts : JSObj)
        (st : σ) (srcM destM : Mount) (srcA destA : Adapter σ),
      findMountpoint mounts adapters fromA = .ok (srcM, srcA) →
      findMountpoint mounts adapters toA = .ok (destM, destA) →
      checkMountpointPermission U "readfile" (.bool false)
        (decide (srcM.attributes.strictGroups ≠ some false)) srcM = .ok true →
      destM.attributes.readOnly = true →
      dispatchCross mounts adapters U method fromA toA opts st
        = (.error (createError 403 (readOnlyMsg destM.name)), st, [])) := by
  have hgate : ∀ (U : List String) (method : String) (strict : Bool) (mount : Mount),
      mount.attributes.readOnly = true →
      checkMountpointPermission U method (.bool true) strict mount
        = .error (createError 403 (readOnlyMsg mount.name)) := by
    intro U method strict mount hro
    simp [checkMountpointPermission, roTruthy, roFailed, hro]
  refine ⟨?_, hgate, ?_, ?_⟩
  · intro r hr hm
    simp only [vfsRoutes, List.mem_cons, List.not_mem_nil, or_false] at hr
    rcases hr with rfl | rfl | rfl | rfl | rfl | rfl | rfl | rfl | rfl | rfl |
      rfl | rfl | rfl | rfl
    all_goals first
      | rfl
      | exact absurd hm (by decide)
  · intro σ mounts adapters U method respond target rest opts st mount ad hmeth hf hro
    have hns : ¬(method = "search" ∧ mount.attributes.searchable = some false) := by
      rintro ⟨rfl, _⟩
      revert hmeth
      decide
    simp [dispatchSingle, hf, hns, hgate U method _ mount hro]
  · intro σ mounts adapters U method fromA toA opts st srcM destM srcA destA
      hf ht hpS hro
    simp only [ne_eq, decide_not] at hpS
    simp [dispatchCross, hf, ht, hpS, hgate U "writefile" _ destM hro]

/-- Witness for C1: a user holding the mount's required group still has a
`writefile` on a read-only mount rejected, with an empty adapter trace. -/
theorem claim_c1_read_only_gate_witness :
    dispatchSingle (σ := Unit)
      [{ name := "ro".toList,
         attributes := { readOnly := true, groups := some [GroupEntry.named "users"] } }]
      (fun _ => { find := fun _ => none }) ["users"] "writefile" (.bool true)
      (some respondNumber) ("ro:/f.txt".toList) [] [] ()
      = (.error (createError 403 (readOnlyMsg ("ro".toList))), (), []) := by
  exact claim_c1_read_only_gate.2.2.1
    [{ name := "ro".toList,
       attributes := { readOnly := true, groups := some [GroupEntry.named "users"] } }]
    (fun _ => { find := fun _ => none }) ["users"] "writefile"
    (some respondNumber) ("ro:/f.txt".toList) [] [] ()
    { name := "ro".toList,
      attributes := { readOnly := true, groups := some [GroupEntry.named "users"] } }
    { find := fun _ => none }
    (by decide) (by rfl) rfl

/-- Claim C7: the `writefile` route is wired with `respondNumber` and the
`exists`/`mkdir`/`unlink`/`touch` routes with `respondBoolean`;
`respondNumber` passes a numeric adapter result through and yields the `-1`
sentinel for every non-numeric result, `respondBoolean` always yields a
strict boolean; and a successful dispatch responds with the route's
normalizer applied to the adapter result. -/
theorem claim_c7_result_normalization :
    ((vfsRoutes.find? (fun r => r.methodName = "writefile")).map RouteSpec.respond
      = some (some respondNumber)) ∧
    (∀ name ∈ (["exists", "mkdir", "unlink", "touch"] : List String),
      (vfsRoutes.find? (fun r => r.methodName = name)).map RouteSpec.respond
        = some (some respondBoolean)) ∧
    (∀ n : Int, respondNumber (.num n) = .num n) ∧
    (∀ v : JSValue, (∀ n : Int, v ≠ .num n) → respondNumber v = .num (-1)) ∧
    (∀ v : JSValue, respondBoolean v = .bool (truthy v)) ∧
    (∀ {σ : Type} (mounts : List Mount) (adapters : String → Adapter σ)
        (U : List String) (method : String) (ro : ReadOnlyArg)
        (respond : Option (JSValue → JSValue)) (target : Str)
        (rest : List JSValue) (opts : JSObj) (st st1 : σ) (mount : Mount)
        (ad : Adapter σ) (op : OpFn σ) (v : JSValue),
      findMountpoint mounts adapters target = .ok (mount, ad) →
      ¬(method = "search" ∧ mount.attributes.searchable = some false) →
      checkMountpointPermission U method ro
        (decide (mount.attributes.strictGroups ≠ some false)) mount = .ok true →
      ad.find method = some op →
      op mount none st target rest opts = (.ok v, st1) →
      method ≠ "readfile" →
      dispatchSingle mounts adapters U method ro respond target rest opts st
        = (.ok (applyRespond respond v), st1, [⟨method, target⟩])) := by
  refine ⟨rfl, ?_, ?_, ?_, ?_, ?_⟩
  · intro name hn
    simp only [List.mem_cons, List.not_mem_nil, or_false] at hn
    rcases hn with rfl | rfl | rfl | rfl <;> rfl
  · intro n; rfl
  · intro v hv
    cases v with
    | num n => exact absurd rfl (hv n)
    | _ => rfl
  · intro v
    cases v <;> rfl
  · intro σ mounts adapters U method ro respond target rest opts st st1 mount ad
      op v hf hns hperm hop hrun hnr
    simp only [ne_eq, decide_not] at hperm
    simp [dispatchSingle, hf, hns, hperm, hop, hrun, hnr]

/-- Witness for C7: an adapter resolving the boolean `true` from `writefile`
is normalized to the `-1` sentinel by the `writefile` route's responder. -/
theorem claim_c7_result_normalization_witness :
    dispatchSingle (σ := Unit) [{ name := "w".toList }]
      (fun _ => { find := fun m =>
        if m = "writefile" then some (fun _ _ st _ _ _ => (.ok (.bool true), st))
        else none })
      [] "writefile" (.bool false) (some respondNumber) ("w:/f".toList)
      [] [] ()
      = (.ok (.num (-1)), (), [⟨"writefile", "w:/f".toList⟩]) := by
  have h := claim_c7_result_normalization.2.2.2.2.2 (σ := Unit)
    [{ name := "w".toList }]
    (fun _ => { find := fun m =>
      if m = "writefile" then some (fun _ _ st _ _ _ => (.ok (.bool true), st))
      else none })
    [] "writefile" (.bool false) (some respondNumber) ("w:/f".toList)
    [] [] () () { name := "w".toList }
    { find := fun m =>
      if m = "writefile" then some (fun _ _ st _ _ _ => (.ok (.bool true), st))
      else none }
    (fun _ _ st _ _ _ => (.ok (.bool true), st)) (.bool true)
    (by rfl) (by decide) rfl (by rfl) rfl (by decide)
  exact h

theorem objGet_objSet_self (o : JSObj) (k : String) (v : JSValue) :
    objGet (objSet o k v) k = some v := by
  induction o with
  | nil => simp [objSet, objGet]
  | cons e rest ih =>
    by_cases hk : e.1 = k
    · simp [objSet, objGet, hk]
    · simpa [objSet, objGet, hk, List.find?_cons] using ih

/-- Claim C9: the options object handed to the adapters takes its `session`
property exclusively from the server-side request session - whatever the
client supplies under `options.session` (through a JSON string or an
object) is overwritten - so two requests with the same server session and
target but different client-supplied options resolve the same real path. -/
theorem claim_c9_session_not_client_controlled
    (parse1 parse2 : Str → Option JSObj) (copts1 copts2 : JSValue)
    (rng : Option (Int × Option Int)) (sess : JSValue) (core : CoreCfg)
    (mount : Mount) (file : Str) :
    objGet (createOptions parse1 ⟨copts1, rng, sess⟩) "session" = some sess ∧
    objGet (createOptions parse2 ⟨copts2, rng, sess⟩) "session" = some sess ∧
    getRealPath core (sessionOf (createOptions parse1 ⟨copts1, rng, sess⟩))
        mount file
      = getRealPath core (sessionOf (createOptions parse2 ⟨copts2, rng, sess⟩))
          mount file := by
  have h1 : objGet (createOptions parse1 ⟨copts1, rng, sess⟩) "session"
      = some sess := objGet_objSet_self _ _ _
  have h2 : objGet (createOptions parse2 ⟨copts2, rng, sess⟩) "session"
      = some sess := objGet_objSet_self _ _ _
  refine ⟨h1, h2, ?_⟩
  simp [sessionOf, h1, h2]

theorem twoStepInduction {motive : Str → Prop} (h0 : motive [])
    (h1 : ∀ c, motive [c])
    (h2 : ∀ a b rest, motive (b :: rest) → motive (a :: b :: rest)) :
    ∀ l, motive l
  | [] => h0
  | [c] => h1 c
  | a :: b :: rest => h2 a b rest (twoStepInduction h0 h1 h2 (b :: rest))

theorem wordChar_ne_slash {c : Char} (h : wordChar c = true) : c ≠ '/' := by
  intro hc
  subst hc
  exact absurd h (by decide)

theorem collapse_cons_of_ne (c : Char) (l : Str) (hc : c ≠ '/') :
    collapse (c :: l) = c :: collapse l := by
  cases l with
  | nil => rfl
  | cons b rest =>
    have hn : ¬(c = '/' ∧ b = '/') := fun hcb => hc hcb.1
    simp only [collapse, hn, if_false]

theorem collapse_cons_head (c : Char) (l : Str) :
    ∃ t, collapse (c :: l) = c :: t := by
  induction l generalizing c with
  | nil => exact ⟨[], rfl⟩
  | cons b rest ih =>
    by_cases h : c = '/' ∧ b = '/'
    · obtain ⟨hc1, hb1⟩ := h
      subst hc1
      subst hb1
      obtain ⟨t, ht⟩ := ih '/'
      exact ⟨t, by simp [collapse, ht]⟩
    · exact ⟨collapse (b :: rest), by simp only [collapse, h, if_false]⟩

theorem head?_collapse (l : Str) : (collapse l).head? = l.head? := by
  cases l with
  | nil => rfl
  | cons c rest =>
    obtain ⟨t, ht⟩ := collapse_cons_head c rest
    rw [ht]
    rfl

theorem noDouble_collapse (l : Str) : noDouble (collapse l) = true := by
  induction l using twoStepInduction with
  | h0 => rfl
  | h1 c => rfl
  | h2 a b rest ih =>
    by_cases h : a = '/' ∧ b = '/'
    · simpa only [collapse, h, if_true, and_self] using ih
    · obtain ⟨t, ht⟩ := collapse_cons_head b rest
      have hbt : noDouble (b :: t) = true := ht ▸ ih
      simp only [collapse, h, if_false, ht, noDouble, hbt, Bool.and_true]
      simp only [Bool.not_eq_true', Bool.and_eq_false_iff, beq_eq_false_iff_ne, ne_eq]
      by_cases ha : a = '/'
      · right
        intro hb
        exact h ⟨ha, hb⟩
      · left
        exact ha

theorem collapse_eq_self_of_noDouble (l : Str) (h : noDouble l = true) :
    collapse l = l := by
  induction l using twoStepInduction with
  | h0 => rfl
  | h1 c => rfl
  | h2 a b rest ih =>
    simp only [noDouble, Bool.and_eq_true, Bool.not_eq_true',
      Bool.and_eq_false_iff, beq_eq_false_iff_ne, ne_eq] at h
    have hn : ¬(a = '/' ∧ b = '/') := by
      rcases h.1 with ha | hb
      · exact fun hab => ha hab.1
      · exact fun hab => hb hab.2
    simp only [collapse, hn, if_false, ih h.2]

theorem collapse_idem (l : Str) : collapse (collapse l) = collapse l :=
  collapse_eq_self_of_noDouble _ (noDouble_collapse l)

theorem collapse_sublist (l : Str) : List.Sublist (collapse l) l := by
  induction l using twoStepInduction with
  | h0 => exact List.Sublist.refl []
  | h1 c => exact List.Sublist.refl [c]
  | h2 a b rest ih =>
    by_cases h : a = '/' ∧ b = '/'
    · obtain ⟨ha1, hb1⟩ := h
      subst ha1
      subst hb1
      have hcol : collapse ('/' :: '/' :: rest) = collapse ('/' :: rest) := by
        simp [collapse]
      rw [hcol]
      exact ih.cons '/'
    · simp only [collapse, h, if_false]
      exact ih.cons₂ a

theorem collapse_append_noslash (a b : Str) (ha : ∀ x ∈ a, x ≠ '/') :
    collapse (a ++ b) = a ++ collapse b := by
  induction a with
  | nil => rfl
  | cons c a' ih =>
    have hc : c ≠ '/' := ha c (List.mem_cons_self c a')
    rw [List.cons_append, collapse_cons_of_ne c (a' ++ b) hc,
      ih (fun x hx => ha x (List.mem_cons_of_mem c hx)), List.cons_append]

theorem splitSlash_ne_nil (l : Str) : splitSlash l ≠ [] := by
  cases l with
  | nil => simp [splitSlash]
  | cons c rest =>
    simp only [splitSlash]
    split
    · simp
    · split <;> simp

theorem join_cons_append (x y : Str) (t : List Str) :
    joinSlash ((x ++ y) :: t) = x ++ joinSlash (y :: t) := by
  cases t with
  | nil => rfl
  | cons u t' =>
    show (x ++ y) ++ '/' :: joinSlash (u :: t') = x ++ (y ++ '/' :: joinSlash (u :: t'))
    rw [List.append_assoc]

theorem join_map_filter (q : Char → Bool) (l : Str) :
    joinSlash ((splitSlash l).map (fun s => s.filter q))
      = l.filter (fun c => c == '/' || q c) := by
  induction l with
  | nil => rfl
  | cons c rest ih =>
    by_cases hc : c = '/'
    · subst hc
      have hsp : splitSlash ('/' :: rest) = [] :: splitSlash rest := by
        simp [splitSlash]
      rw [hsp, List.map_cons, List.filter_nil]
      obtain ⟨m, ms, hm⟩ :
          ∃ m ms, (splitSlash rest).map (fun s => s.filter q) = m :: ms := by
        cases hs : (splitSlash rest).map (fun s => s.filter q) with
        | nil =>
          exact absurd (List.map_eq_nil_iff.mp hs) (splitSlash_ne_nil rest)
        | cons m ms => exact ⟨m, ms, rfl⟩
      rw [hm]
      have hj : joinSlash ([] :: m :: ms) = '/' :: joinSlash (m :: ms) := rfl
      rw [hj, ← hm, ih, List.filter_cons]
      have hr : (('/' : Char) == '/' || q '/') = true := by simp
      rw [hr, if_pos rfl]
    · obtain ⟨seg, segs, hs⟩ : ∃ seg segs, splitSlash rest = seg :: segs := by
        cases hs : splitSlash rest with
        | nil => exact absurd hs (splitSlash_ne_nil rest)
        | cons seg segs => exact ⟨seg, segs, rfl⟩
      have hsp : splitSlash (c :: rest) = (c :: seg) :: segs := by
        simp [splitSlash, hc, hs]
      rw [hsp, List.map_cons, List.filter_cons, List.filter_cons]
      rw [hs, List.map_cons] at ih
      by_cases hqc : q c = true
      · have hr : (c == '/' || q c) = true := by simp [hqc]
        rw [if_pos hqc, if_pos hr]
        have h1 : (c :: List.filter q seg) = [c] ++ List.filter q seg := rfl
        rw [h1, join_cons_append, ih]
        rfl
      · have hqc' : q c = false := by simpa using hqc
        have hr : ¬((c == '/' || q c) = true) := by simp [hqc', hc]
        rw [if_neg hqc, if_neg hr, ih]

theorem dropWhile_eq_drop (p : Char → Bool) (l : Str) :
    l.dropWhile p = l.drop (l.takeWhile p).length := by
  induction l with
  | nil => rfl
  | cons c rest ih =>
    cases hp : p c with
    | true => simp [List.dropWhile_cons, List.takeWhile_cons, hp, ih]
    | false => simp [List.dropWhile_cons, List.takeWhile_cons, hp]

theorem takeWhile_append_stop (p : Char → Bool) (a b : Str) (d : Char)
    (ha : ∀ c ∈ a, p c = true) (hd : p d = false) :
    (a ++ d :: b).takeWhile p = a := by
  induction a with
  | nil => simp [List.takeWhile_cons, hd]
  | cons c a' ih =>
    have hc : p c = true := ha c (List.mem_cons_self c a')
    simp [List.takeWhile_cons, hc,
      ih (fun x hx => ha x (List.mem_cons_of_mem c hx))]

theorem dropWhile_all_neg (p : Char → Bool) (l : Str)
    (h : ∀ c ∈ l, p c = false) : l.dropWhile p = l := by
  cases l with
  | nil => rfl
  | cons c rest =>
    simp [List.dropWhile_cons, h c (List.mem_cons_self c rest)]

theorem takeWhile_isEmpty_head (p : Char → Bool) (l : Str) :
    (l.takeWhile p).isEmpty
      = (match l.head? with | none => true | some c => !p c) := by
  cases l with
  | nil => rfl
  | cons c rest =>
    cases hp : p c <;> simp [List.takeWhile_cons, hp]

theorem colonAfterWord_cons_word {c : Char} (x : Str) (hw : wordChar c = true) :
    colonAfterWord (c :: x) = colonAfterWord x := by
  simp [colonAfterWord, List.dropWhile_cons, hw]

theorem colonAfterWord_cons_colon (x : Str) :
    colonAfterWord (':' :: x) = true := by
  have hw : wordChar ':' = false := by decide
  simp [colonAfterWord, List.dropWhile_cons, hw]

theorem colonAfterWord_cons_false {c : Char} (x : Str) (hw : wordChar c = false)
    (hc : c ≠ ':') : colonAfterWord (c :: x) = false := by
  simp only [colonAfterWord, List.dropWhile_cons, hw, Bool.false_eq_true, if_false]
  split
  · next heq =>
    exact absurd (List.head_eq_of_cons_eq heq) hc
  · rfl

theorem colonAfterWord_collapse (s : Str) :
    colonAfterWord (collapse s) = colonAfterWord s := by
  induction s with
  | nil => rfl
  | cons c rest ih =>
    by_cases hw : wordChar c = true
    · rw [collapse_cons_of_ne c rest (wordChar_ne_slash hw),
        colonAfterWord_cons_word _ hw, colonAfterWord_cons_word _ hw, ih]
    · have hw' : wordChar c = false := by simpa using hw
      by_cases hc : c = ':'
      · subst hc
        rw [collapse_cons_of_ne ':' rest (by decide),
          colonAfterWord_cons_colon, colonAfterWord_cons_colon]
      · obtain ⟨t, ht⟩ := collapse_cons_head c rest
        rw [ht, colonAfterWord_cons_false t hw' hc,
          colonAfterWord_cons_false rest hw' hc]

theorem validStart_collapse (s : Str) : validStart (collapse s) = validStart s := by
  have h1 : ((collapse s).takeWhile wordChar).isEmpty
      = (s.takeWhile wordChar).isEmpty := by
    rw [takeWhile_isEmpty_head, takeWhile_isEmpty_head, head?_collapse]
  rw [validStart, validStart, h1, colonAfterWord_collapse]

theorem matchAddr_none_of_invalid (l : Str) (h : validStart l = false) :
    matchAddr l = none := by
  by_cases hE : (l.takeWhile wordChar).isEmpty = true
  · simp [matchAddr, hE]
  · have hE' : (l.takeWhile wordChar).isEmpty = false := by simpa using hE
    have hcaw : colonAfterWord l = false := by
      rw [validStart, hE'] at h
      simpa using h
    simp only [matchAddr, hE', Bool.false_eq_true, if_false]
    rw [← dropWhile_eq_drop]
    cases h2 : l.dropWhile wordChar with
    | nil => rfl
    | cons d r =>
      have hd : d ≠ ':' := by
        intro hdc
        subst hdc
        rw [colonAfterWord, h2] at hcaw
        simp at hcaw
      split
      · next heq =>
        exact absurd (List.head_eq_of_cons_eq heq) hd
      · rfl

theorem validStart_iff_decomp (s : Str) :
    validStart s = true ↔
      ∃ w r, w ≠ [] ∧ (∀ c ∈ w, wordChar c = true) ∧ s = w ++ ':' :: r := by
  constructor
  · intro h
    rw [validStart, Bool.and_eq_true] at h
    obtain ⟨hE, hcaw⟩ := h
    cases h2 : s.dropWhile wordChar with
    | nil =>
      rw [colonAfterWord, h2] at hcaw
      simp at hcaw
    | cons d r =>
      have hd : d = ':' := by
        by_contra hd
        rw [colonAfterWord, h2] at hcaw
        revert hcaw
        split
        · next heq =>
          intro _
          exact hd (List.head_eq_of_cons_eq heq)
        · intro hfalse
          simp at hfalse
      refine ⟨s.takeWhile wordChar, r, ?_, ?_, ?_⟩
      · intro hnil
        rw [hnil] at hE
        simp at hE
      · intro c hc
        exact List.mem_takeWhile_imp hc
      · conv_lhs => rw [← List.takeWhile_append_dropWhile (p := wordChar) (l := s)]
        rw [h2, hd]
  · rintro ⟨w, r, hw, hall, rfl⟩
    have ht : (w ++ ':' :: r).takeWhile wordChar = w :=
      takeWhile_append_stop wordChar w r ':' hall (by decide)
    have hd : (w ++ ':' :: r).dropWhile wordChar = ':' :: r := by
      rw [dropWhile_eq_drop, ht, List.drop_left]
    rw [validStart, ht, colonAfterWord, hd]
    simp [hw]

/-- Claim C10: `sanitize` is not total - an input that does not begin with a
non-empty run of word characters/hyphens/underscores followed by a colon
makes the regex fail and the JavaScript code throw a `TypeError` (modelled
by `none`), and such a request is rejected before any mountpoint resolution
or adapter call.  The executable guard `validStart` is exactly the claimed
decomposition (third conjunct). -/
theorem claim_c10_sanitize_partial (s : Str) (h : validStart s = false) :
    sanitize s = none ∧
    (∀ {σ : Type} (mounts : List Mount) (adapters : String → Adapter σ)
        (U : List String) (method : String) (ro : ReadOnlyArg)
        (respond : Option (JSValue → JSValue)) (rest : List JSValue)
        (opts : JSObj) (st : σ),
      handleSingle mounts adapters U method ro respond s rest opts st
        = (.error typeErrorErr, st, [])) ∧
    (∀ s' : Str, validStart s' = true ↔
      ∃ w r, w ≠ [] ∧ (∀ c ∈ w, wordChar c = true) ∧ s' = w ++ ':' :: r) := by
  have hmatch : matchAddr (collapse s) = none :=
    matchAddr_none_of_invalid _ (by rw [validStart_collapse]; exact h)
  have hsan : sanitize s = none := by
    rw [sanitize, hmatch]
  refine ⟨hsan, ?_, validStart_iff_decomp⟩
  intro σ mounts adapters U method ro respond rest opts st
  rw [handleSingle, hsan]

/-- Witness for C10: a path without a colon is rejected with no adapter
call. -/
theorem claim_c10_sanitize_partial_witness :
    sanitize ("/no/colon/here".toList) = none ∧
    handleSingle (σ := Unit) [] (fun _ => { find := fun _ => none }) []
      "readfile" (.bool false) none ("/no/colon/here".toList) [] [] ()
      = (.error typeErrorErr, (), []) := by
  have h := claim_c10_sanitize_partial ("/no/colon/here".toList) (by decide)
  exact ⟨h.1, h.2.1 [] (fun _ => { find := fun _ => none }) [] "readfile"
    (.bool false) none [] [] ()⟩

theorem join_map_sanitize (l : Str) :
    joinSlash ((splitSlash l).map sanitizeFilename)
      = l.filter (fun c => c == '/' || !illegalFsChar c) :=
  join_map_filter (fun c => !illegalFsChar c) l

/-- Claim C8: `sanitize` is idempotent on its domain - whenever it accepts
an address (returns a value rather than throwing), running it again on the
result returns the result unchanged. -/
theorem claim_c8_sanitize_idempotent (s t : Str) (h : sanitize s = some t) :
    sanitize t = some t := by
  rw [sanitize] at h
  cases hm : matchAddr (collapse s) with
  | none =>
    rw [hm] at h
    cases h
  | some nm =>
    obtain ⟨name, str⟩ := nm
    rw [hm] at h
    have ht : name ++ ':' ::
        collapse (joinSlash ((splitSlash str).map sanitizeFilename)) = t :=
      Option.some.inj h
    -- Destructure the successful regex match.
    simp only [matchAddr] at hm
    by_cases hE : ((collapse s).takeWhile wordChar).isEmpty = true
    · rw [if_pos hE] at hm
      cases hm
    · rw [if_neg hE, ← dropWhile_eq_drop] at hm
      cases h2 : (collapse s).dropWhile wordChar with
      | nil =>
        rw [h2] at hm
        cases hm
      | cons d r =>
        rw [h2] at hm
        by_cases hd : d = ':'
        · subst hd
          injection hm with hpair
          injection hpair with hn hs
          -- Facts about the captured groups.
          have hname_word : ∀ c ∈ name, wordChar c = true := by
            intro c hc
            rw [← hn] at hc
            exact List.mem_takeWhile_imp hc
          have hname_ne : name ≠ [] := by
            intro h0
            apply hE
            rw [hn, h0]
            rfl
          have hstr_dot : ∀ c ∈ str, jsDot c = true := by
            intro c hc
            rw [← hs] at hc
            exact List.mem_takeWhile_imp hc
          set sane := collapse (joinSlash ((splitSlash str).map sanitizeFilename))
            with hsane_def
          have hsane_mem : ∀ c ∈ sane,
              (c == '/' || !illegalFsChar c) = true ∧ jsDot c = true := by
            intro c hc
            rw [hsane_def, join_map_sanitize] at hc
            have hc' := (collapse_sublist _).subset hc
            rw [List.mem_filter] at hc'
            exact ⟨hc'.2, hstr_dot c hc'.1⟩
          have hsane_ncolon : ∀ c ∈ sane, c ≠ ':' := by
            intro c hc hcc
            subst hcc
            exact absurd (hsane_mem ':' hc).1 (by decide)
          -- The result is a fixpoint of every stage of `sanitize`.
          have hword_ne : ∀ x ∈ name ++ [':'], x ≠ '/' := by
            intro x hx
            rcases List.mem_append.mp hx with hx | hx
            · exact wordChar_ne_slash (hname_word x hx)
            · rw [List.mem_singleton] at hx
              subst hx
              decide
          have hct : collapse t = t := by
            rw [← ht]
            have h1 : name ++ ':' :: sane = (name ++ [':']) ++ sane := by
              rw [List.append_assoc]
              rfl
            rw [h1, collapse_append_noslash _ _ hword_ne, hsane_def, collapse_idem]
          have htw : t.takeWhile wordChar = name := by
            rw [← ht]
            exact takeWhile_append_stop wordChar name sane ':' hname_word (by decide)
          have hdrop : t.drop name.length = ':' :: sane := by
            rw [← ht]
            exact List.drop_left name (':' :: sane)
          have hmt : matchAddr t = some (name, sane) := by
            simp only [matchAddr, htw]
            have hne : ¬(name.isEmpty = true) := by
              cases hname : name with
              | nil => exact absurd hname hname_ne
              | cons a b => simp
            rw [if_neg hne, hdrop]
            show some (name, (sane.dropWhile fun c => c = ':').takeWhile jsDot)
              = some (name, sane)
            rw [dropWhile_all_neg _ sane
                (fun c hc => decide_eq_false (hsane_ncolon c hc)),
              List.takeWhile_eq_self_iff.mpr (fun c hc => (hsane_mem c hc).2)]
          rw [sanitize, hct, hmt]
          show some (name ++ ':' ::
            collapse (joinSlash ((splitSlash sane).map sanitizeFilename))) = some t
          rw [join_map_sanitize,
            List.filter_eq_self.mpr (fun c hc => (hsane_mem c hc).1), ← ht,
            hsane_def, collapse_idem]
        · exfalso
          revert hm
          split
          · next heq =>
            intro _
            exact hd (List.head_eq_of_cons_eq heq)
          · intro hm
            cases hm

/-- Witness for C8: sanitizing a messy but valid address once reaches a
fixpoint. -/
theorem claim_c8_sanitize_idempotent_witness :
    sanitize ("home://a//b?.txt".toList) = some ("home:/a/b.txt".toList) ∧
    sanitize ("home:/a/b.txt".toList) = some ("home:/a/b.txt".toList) := by
  refine ⟨by decide, ?_⟩
  exact claim_c8_sanitize_idempotent ("home://a//b?.txt".toList)
    ("home:/a/b.txt".toList) (by decide)

theorem storeGet_erase_self (st : Store) (k : Str) :
    storeGet (storeErase st k) k = none := by
  induction st with
  | nil => rfl
  | cons e rest ih =>
    cases hk : (e.1 == k) with
    | true => simpa [storeErase, List.filter_cons, hk] using ih
    | false =>
      simp only [storeErase, List.filter_cons, hk, Bool.not_false, if_true]
      rw [storeGet, List.find?_cons_of_neg _ (by simp [hk])]
      exact ih

theorem storeGet_erase_other (st : Store) (k k' : Str) (h : k' ≠ k) :
    storeGet (storeErase st k) k' = storeGet st k' := by
  induction st with
  | nil => rfl
  | cons e rest ih =>
    cases hk : (e.1 == k) with
    | true =>
      have hk' : (e.1 == k') = false := by
        rw [beq_iff_eq] at hk
        rw [beq_eq_false_iff_ne, hk]
        exact fun he => h he.symm
      simpa [storeErase, storeGet, List.filter_cons, List.find?_cons, hk, hk']
        using ih
    | false =>
      cases hk' : (e.1 == k') with
      | true => simp [storeErase, storeGet, List.filter_cons, List.find?_cons, hk, hk']
      | false =>
        simpa [storeErase, storeGet, List.filter_cons, List.find?_cons, hk, hk']
          using ih

theorem storeGet_set_self (st : Store) (k : Str) (v : List Nat) :
    storeGet (storeSet st k v) k = some v := by
  simp [storeSet, storeGet, List.find?_cons]

theorem storeGet_set_other (st : Store) (k k' : Str) (v : List Nat) (h : k' ≠ k) :
    storeGet (storeSet st k v) k' = storeGet st k' := by
  have hk : (k == k') = false := by
    rw [beq_eq_false_iff_ne]
    exact fun he => h he.symm
  rw [storeSet, storeGet, List.find?_cons]
  simp only [hk]
  exact storeGet_erase_other st k k' h

/-- Claim C5: a `copy`/`rename` whose source and destination resolve
different adapters is simulated as a `readfile` stream from the source
written to the destination via `writefile`, with the source additionally
unlinked (after the successful write) for `rename`; the resulting end state
- destination carries the source's prior content, the source is gone, all
other entries untouched - coincides with the end state of the native
adapter `rename` taken when both sides share an adapter. -/
theorem claim_c5_cross_adapter_copy_rename (core : CoreCfg) (U : List String)
    (mA mB mC mD : Mount) (fromA toA fromN toN : Str) (opts : JSObj)
    (c : List Nat) (s1 s2 s : Store)
    (hA : mA.adapterName = some "backendA")
    (hB : mB.adapterName = some "backendB")
    (hfrom : getPrefixStr fromA = mA.name)
    (hto : getPrefixStr toA = mB.name)
    (hAB : mA.name ≠ mB.name)
    (hpS : checkMountpointPermission U "readfile" (.bool false)
      (decide (mA.attributes.strictGroups ≠ some false)) mA = .ok true)
    (hpD : checkMountpointPermission U "writefile" (.bool true)
      (decide (mB.attributes.strictGroups ≠ some false)) mB = .ok true)
    (hsrc : storeGet s1 (getRealPath core (sessionOf opts) mA fromA) = some c)
    (hC : mC.adapterName = none)
    (hD : mD.adapterName = none)
    (hfromN : getPrefixStr fromN = mC.name)
    (htoN : getPrefixStr toN = mD.name)
    (hCD : mC.name ≠ mD.name)
    (hpSN : checkMountpointPermission U "readfile" (.bool false)
      (decide (mC.attributes.strictGroups ≠ some false)) mC = .ok true)
    (hpDN : checkMountpointPermission U "writefile" (.bool true)
      (decide (mD.attributes.strictGroups ≠ some false)) mD = .ok true)
    (hsrcN : storeGet s (getRealPath core (sessionOf opts) mC fromN) = some c)
    (hneN : getRealPath core (sessionOf opts) mC fromN
      ≠ getRealPath core (sessionOf opts) mD toN) :
    (dispatchCross [mA, mB] (twoBackends core) U "rename" fromA toA opts (s1, s2)
      = (.ok (.bool true),
         (storeErase s1 (getRealPath core (sessionOf opts) mA fromA),
          storeSet s2 (getRealPath core (sessionOf opts) mB toA) c),
         [⟨"readfile", fromA⟩, ⟨"writefile", toA⟩, ⟨"unlink", fromA⟩])) ∧
    (dispatchCross [mA, mB] (twoBackends core) U "copy" fromA toA opts (s1, s2)
      = (.ok (.bool true),
         (s1, storeSet s2 (getRealPath core (sessionOf opts) mB toA) c),
         [⟨"readfile", fromA⟩, ⟨"writefile", toA⟩])) ∧
    (storeGet (storeSet s2 (getRealPath core (sessionOf opts) mB toA) c)
        (getRealPath core (sessionOf opts) mB toA) = some c) ∧
    (storeGet (storeErase s1 (getRealPath core (sessionOf opts) mA fromA))
        (getRealPath core (sessionOf opts) mA fromA) = none) ∧
    (∀ k, k ≠ getRealPath core (sessionOf opts) mA fromA →
      storeGet (storeErase s1 (getRealPath core (sessionOf opts) mA fromA)) k
        = storeGet s1 k) ∧
    (∀ k, k ≠ getRealPath core (sessionOf opts) mB toA →
      storeGet (storeSet s2 (getRealPath core (sessionOf opts) mB toA) c) k
        = storeGet s2 k) ∧
    (dispatchCross [mC, mD] (oneBackend core) U "rename" fromN toN opts s
      = (.ok (.bool true),
         storeSet (storeErase s (getRealPath core (sessionOf opts) mC fromN))
           (getRealPath core (sessionOf opts) mD toN) c,
         [⟨"rename", fromN⟩])) ∧
    (storeGet
        (storeSet (storeErase s (getRealPath core (sessionOf opts) mC fromN))
          (getRealPath core (sessionOf opts) mD toN) c)
        (getRealPath core (sessionOf opts) mD toN) = some c) ∧
    (storeGet
        (storeSet (storeErase s (getRealPath core (sessionOf opts) mC fromN))
          (getRealPath core (sessionOf opts) mD toN) c)
        (getRealPath core (sessionOf opts) mC fromN) = none) ∧
    (∀ k, k ≠ getRealPath core (sessionOf opts) mC fromN →
      k ≠ getRealPath core (sessionOf opts) mD toN →
      storeGet
        (storeSet (storeErase s (getRealPath core (sessionOf opts) mC fromN))
          (getRealPath core (sessionOf opts) mD toN) c) k = storeGet s k) := by
  have hpS' := hpS
  have hpD' := hpD
  have hpSN' := hpSN
  have hpDN' := hpDN
  simp only [ne_eq, decide_not] at hpS' hpD' hpSN' hpDN'
  have hfindA : findMountpoint [mA, mB] (twoBackends core) fromA
      = .ok (mA, sysAdapter core fstLens) := by
    have h1 : (mA.name == getPrefixStr fromA) = true := by
      rw [hfrom]
      exact beq_self_eq_true _
    simp [findMountpoint, List.find?_cons, h1, effAdapterName, hA, twoBackends]
  have hfindB : findMountpoint [mA, mB] (twoBackends core) toA
      = .ok (mB, sysAdapter core sndLens) := by
    have h1 : (mA.name == getPrefixStr toA) = false := by
      rw [hto]
      exact beq_eq_false_iff_ne.mpr hAB
    have h2 : (mB.name == getPrefixStr toA) = true := by
      rw [hto]
      exact beq_self_eq_true _
    simp [findMountpoint, List.find?_cons, h1, h2, effAdapterName, hB, twoBackends]
  have hfindC : findMountpoint [mC, mD] (oneBackend core) fromN
      = .ok (mC, sysAdapter core idLens) := by
    have h1 : (mC.name == getPrefixStr fromN) = true := by
      rw [hfromN]
      exact beq_self_eq_true _
    simp [findMountpoint, List.find?_cons, h1, oneBackend]
  have hfindD : findMountpoint [mC, mD] (oneBackend core) toN
      = .ok (mD, sysAdapter core idLens) := by
    have h1 : (mC.name == getPrefixStr toN) = false := by
      rw [htoN]
      exact beq_eq_false_iff_ne.mpr hCD
    have h2 : (mD.name == getPrefixStr toN) = true := by
      rw [htoN]
      exact beq_self_eq_true _
    simp [findMountpoint, List.find?_cons, h1, h2, oneBackend]
  have hdiff : effAdapterName mA ≠ effAdapterName mB := by
    rw [effAdapterName, effAdapterName, hA, hB]
    decide
  have hsame : effAdapterName mC = effAdapterName mD := by
    rw [effAdapterName, effAdapterName, hC, hD]
  refine ⟨?_, ?_, storeGet_set_self _ _ _, storeGet_erase_self _ _,
    fun k hk => storeGet_erase_other _ _ _ hk,
    fun k hk => storeGet_set_other _ _ _ _ hk, ?_,
    storeGet_set_self _ _ _, ?_, ?_⟩
  · simp [dispatchCross, hfindA, hfindB, hpS', hpD', hdiff, sysAdapter,
      sysReadfile, sysWritefile, sysUnlink, fstLens, sndLens, hsrc, truthy]
  · simp [dispatchCross, hfindA, hfindB, hpS', hpD', hdiff, sysAdapter,
      sysReadfile, sysWritefile, sysUnlink, fstLens, sndLens, hsrc, truthy]
  · simp [dispatchCross, hfindC, hfindD, hpSN', hpDN', hsame, sysAdapter,
      sysRename, idLens, hsrcN, truthy]
  · rw [storeGet_set_other _ _ _ _ hneN]
    exact storeGet_erase_self _ _
  · intro k hk1 hk2
    rw [storeGet_set_other _ _ _ _ hk2]
    exact storeGet_erase_other _ _ _ hk1

/-- Witness for C5: renaming `a:/f.txt` (backend A) to `b:/g.txt`
(backend B) streams the content across and unlinks the source. -/
theorem claim_c5_cross_adapter_copy_rename_witness :
    dispatchCross
      [{ name := "a".toList, root := "a:/".toList,
         adapterName := some "backendA",
         attributes := { rootTemplate := "/A".toList } },
       { name := "b".toList, root := "b:/".toList,
         adapterName := some "backendB",
         attributes := { rootTemplate := "/B".toList } }]
      (twoBackends {}) [] "rename" ("a:/f.txt".toList) ("b:/g.txt".toList) []
      ([("/A/f.txt".toList, [7, 8])], [])
      = (.ok (.bool true),
         (storeErase [("/A/f.txt".toList, [7, 8])] ("/A/f.txt".toList),
          storeSet [] ("/B/g.txt".toList) [7, 8]),
         [⟨"readfile", "a:/f.txt".toList⟩, ⟨"writefile", "b:/g.txt".toList⟩,
          ⟨"unlink", "a:/f.txt".toList⟩]) := by
  have h := claim_c5_cross_adapter_copy_rename {} []
    { name := "a".toList, root := "a:/".toList,
      adapterName := some "backendA",
      attributes := { rootTemplate := "/A".toList } }
    { name := "b".toList, root := "b:/".toList,
      adapterName := some "backendB",
      attributes := { rootTemplate := "/B".toList } }
    { name := "c".toList, root := "c:/".toList,
      attributes := { rootTemplate := "/C".toList } }
    { name := "d".toList, root := "d:/".toList,
      attributes := { rootTemplate := "/D".toList } }
    ("a:/f.txt".toList) ("b:/g.txt".toList)
    ("c:/f.txt".toList) ("d:/g.txt".toList) [] [7, 8]
    [("/A/f.txt".toList, [7, 8])] [] [("/C/f.txt".toList, [7, 8])]
    rfl rfl (by decide) (by decide) (by decide) rfl rfl (by decide)
    rfl rfl (by decide) (by decide) (by decide) rfl rfl (by decide) (by decide)
  exact h.1

theorem collectEntries_ok (archiveRoot : Str) (root : FSTree) (l : List Str)
    (h : ∀ p ∈ l, (resolvePath (splitPath p) root).isSome = true) :
    ∃ es, collectEntries archiveRoot root l = .ok es ∧
      ∀ p t e, p ∈ l → resolvePath (splitPath p) root = some t →
        e ∈ walkTree archiveRoot p t → e ∈ es := by
  induction l with
  | nil =>
    exact ⟨[], rfl, by intro p t e hp _ _; cases hp⟩
  | cons p rest ih =>
    have hp := h p (List.mem_cons_self p rest)
    obtain ⟨t0, ht0⟩ : ∃ t0, resolvePath (splitPath p) root = some t0 := by
      cases hres : resolvePath (splitPath p) root with
      | none => rw [hres] at hp; cases hp
      | some t0 => exact ⟨t0, rfl⟩
    obtain ⟨es, hes, hmem⟩ := ih (fun q hq => h q (List.mem_cons_of_mem p hq))
    refine ⟨walkTree archiveRoot p t0 ++ es, ?_, ?_⟩
    · rw [collectEntries, ht0, hes]
    · intro q t e hq hres he
      rcases List.mem_cons.mp hq with rfl | hq
      · rw [ht0] at hres
        injection hres with hres
        subst hres
        exact List.mem_append_left es he
      · exact List.mem_append_right _ (hmem q t e hq hres he)

theorem collectEntries_err (archiveRoot : Str) (root : FSTree) (l : List Str)
    (h : ∃ p ∈ l, resolvePath (splitPath p) root = none) :
    collectEntries archiveRoot root l = .error enoentErr := by
  induction l with
  | nil =>
    obtain ⟨p, hp, _⟩ := h
    cases hp
  | cons p rest ih =>
    cases hres : resolvePath (splitPath p) root with
    | none => rw [collectEntries, hres]
    | some t =>
      obtain ⟨q, hq, hqn⟩ := h
      rcases List.mem_cons.mp hq with rfl | hq
      · rw [hres] at hqn
        cases hqn
      · rw [collectEntries, hres, ih ⟨q, hq, hqn⟩]

/-- Claim C6: `archive` with action `compress` creates the zip as a sibling
of the first selected entry (`realPaths[0] + ".zip"`); when every selected
real path resolves, every file collected by the recursive walk of each
selection is an entry of that single zip; when any entry fails (a selected
path that does not resolve makes `fs.stat` reject), the partial zip is
deleted and the original error is re-raised. -/
theorem claim_c6_archive_compress (root : FSTree) (p0 : Str) (ps : List Str) :
    ((∀ p ∈ p0 :: ps, (resolvePath (splitPath p) root).isSome = true) →
      ∃ es, archiveCompress root (p0 :: ps)
          = (.ok true, some (p0 ++ ".zip".toList, es)) ∧
        ∀ p t e, p ∈ p0 :: ps → resolvePath (splitPath p) root = some t →
          e ∈ walkTree (dirOf (p0 ++ ".zip".toList) ++ ['/']) p t → e ∈ es) ∧
    ((∃ p ∈ p0 :: ps, resolvePath (splitPath p) root = none) →
      archiveCompress root (p0 :: ps) = (.error enoentErr, none)) := by
  constructor
  · intro h
    obtain ⟨es, hes, hmem⟩ :=
      collectEntries_ok (dirOf (p0 ++ ".zip".toList) ++ ['/']) root (p0 :: ps) h
    refine ⟨es, ?_, hmem⟩
    rw [archiveCompress]
    simp only [List.head?_cons, Option.getD_some]
    rw [hes]
  · intro h
    rw [archiveCompress]
    simp only [List.head?_cons, Option.getD_some]
    rw [collectEntries_err (dirOf (p0 ++ ".zip".toList) ++ ['/']) root (p0 :: ps) h]

/-- Witness for C6: selecting a missing path aborts the compression, the
partial zip is deleted and the `ENOENT` error re-raised. -/
theorem claim_c6_archive_compress_witness :
    archiveCompress
      (FSTree.dir [("srv".toList,
        FSTree.dir [("data".toList,
          FSTree.dir [("a.txt".toList, FSTree.file [1, 2])])])])
      [("/srv/data".toList), ("/srv/missing".toList)]
      = (.error enoentErr, none) := by
  have h := claim_c6_archive_compress
    (FSTree.dir [("srv".toList,
      FSTree.dir [("data".toList,
        FSTree.dir [("a.txt".toList, FSTree.file [1, 2])])])])
    ("/srv/data".toList) [("/srv/missing".toList)]
  exact h.2 ⟨("/srv/missing".toList), by decide, rfl⟩

end MeeseVfs
